import Mathlib

set_option linter.unusedVariables false

/-!
Shallow embedding of the chess rules engine in `src/pages/Index.tsx`:
the board model, the move-legality predicate `isValidMove`, the move
application performed by `makeAIMove`/`handleSquareClick`, and the
AI move enumeration and selection of `makeAIMove`.

Coordinates are embedded as `Int` (JavaScript numbers used as array
indices; deltas may be negative).  A board access `board[r][c]` is
embedded as `getSq`, which returns `none` when the index is out of
the 8×8 grid — in JavaScript such an access yields `undefined` and a
subsequent property read throws, so a `none` result of the embedded
`isValidMove` marks exactly the inputs on which the source would throw
a TypeError; `some b` means the source returns the boolean `b`.
-/

inductive PieceType where
  | king | queen | rook | bishop | knight | pawn
deriving DecidableEq

inductive PieceColor where
  | white | black
deriving DecidableEq

structure Piece where
  type : PieceType
  color : PieceColor
deriving DecidableEq

/-- Board: 8×8 grid of optional pieces (`(Piece | null)[][]` in the source). -/
abbrev Board := Fin 8 → Fin 8 → Option Piece

/-- Embedded array access `board[r][c]`: `none` when (r, c) is outside the
grid (the source would throw there), otherwise the cell content. -/
def getSq (b : Board) (r c : Int) : Option (Option Piece) :=
  if h : 0 ≤ r ∧ r < 8 ∧ 0 ≤ c ∧ c < 8 then
    some (b ⟨r.toNat, by omega⟩ ⟨c.toNat, by omega⟩)
  else none

/-- Test `targetPiece && targetPiece.color === piece.color` (line 69 of the
source). -/
def sameColorTarget (targetPiece : Option Piece) (piece : Piece) : Bool :=
  match targetPiece with
  | some t => decide (t.color = piece.color)
  | none => false

/-- Loop `for (let c = startC + 1; c < endC; c++) if (board[row][c]) return
false` followed by `return true` (source lines 90-92 / 125-127). -/
def pathRowClear (board : Board) (row : Int) : Int → Int → Option Bool
  | c, endC =>
    if h : c < endC then
      match getSq board row c with
      | none => none
      | some (some _) => some false
      | some none => pathRowClear board row (c + 1) endC
    else some true
termination_by c endC => (endC - c).toNat
decreasing_by simp_wf; omega

/-- Loop `for (let r = startR + 1; r < endR; r++) if (board[r][col]) return
false` followed by `return true` (source lines 94-96 / 129-131). -/
def pathColClear (board : Board) (col : Int) : Int → Int → Option Bool
  | r, endR =>
    if h : r < endR then
      match getSq board r col with
      | none => none
      | some (some _) => some false
      | some none => pathColClear board col (r + 1) endR
    else some true
termination_by r endR => (endR - r).toNat
decreasing_by simp_wf; omega

/-- Loop `while (r !== toRow && c !== toCol) { if (board[r][c]) return false;
r += rowDir; c += colDir; }` followed by `return true` (source lines
110-115 / 137-141).  The `fuel` argument bounds the iteration count; the
source loop performs at most 8 in-range accesses before it either exits,
reaches an out-of-range index (a throw, embedded as `none`), so the fuel
of 16 supplied at the call sites is never exhausted on inputs where the
source terminates normally. -/
def diagClear (board : Board) (toRow toCol rowDir colDir : Int) :
    Int → Int → Nat → Option Bool
  | r, c, 0 => if r ≠ toRow ∧ c ≠ toCol then none else some true
  | r, c, Nat.succ fuel =>
    if r ≠ toRow ∧ c ≠ toCol then
      match getSq board r c with
      | none => none
      | some (some _) => some false
      | some none => diagClear board toRow toCol rowDir colDir (r + rowDir) (c + colDir) fuel
    else some true

/-- The rule engine `isValidMove(fromRow, fromCol, toRow, toCol)` (source
lines 64-153), with the board passed explicitly.  Result `some b`: the
source returns `b`; result `none`: the source throws on an out-of-range
board access. -/
def isValidMove (board : Board) (fromRow fromCol toRow toCol : Int) : Option Bool :=
  match getSq board fromRow fromCol with
  | none => none
  | some none => some false
  | some (some piece) =>
    match getSq board toRow toCol with
    | none => none
    | some targetPiece =>
      if sameColorTarget targetPiece piece then some false
      else
        let rowDiff : Nat := (toRow - fromRow).natAbs
        let colDiff : Nat := (toCol - fromCol).natAbs
        match piece.type with
        | PieceType.pawn =>
          let direction : Int := if piece.color = PieceColor.white then -1 else 1
          let startRow : Int := if piece.color = PieceColor.white then 6 else 1
          if toCol = fromCol ∧ targetPiece = none then
            if toRow = fromRow + direction then some true
            else if fromRow = startRow ∧ toRow = fromRow + 2 * direction then
              match getSq board (fromRow + direction) fromCol with
              | none => none
              | some mid =>
                if mid = none then some true
                else some (decide (colDiff = 1 ∧ toRow = fromRow + direction ∧ targetPiece ≠ none))
            else some (decide (colDiff = 1 ∧ toRow = fromRow + direction ∧ targetPiece ≠ none))
          else some (decide (colDiff = 1 ∧ toRow = fromRow + direction ∧ targetPiece ≠ none))
        | PieceType.rook =>
          if fromRow = toRow ∨ fromCol = toCol then
            let startR : Int := if fromRow < toRow then fromRow else toRow
            let endR : Int := if fromRow < toRow then toRow else fromRow
            let startC : Int := if fromCol < toCol then fromCol else toCol
            let endC : Int := if fromCol < toCol then toCol else fromCol
            if fromRow = toRow then pathRowClear board fromRow (startC + 1) endC
            else pathColClear board fromCol (startR + 1) endR
          else some false
        | PieceType.knight =>
          some (decide ((rowDiff = 2 ∧ colDiff = 1) ∨ (rowDiff = 1 ∧ colDiff = 2)))
        | PieceType.bishop =>
          if rowDiff = colDiff then
            let rowDir : Int := if fromRow < toRow then 1 else -1
            let colDir : Int := if fromCol < toCol then 1 else -1
            diagClear board toRow toCol rowDir colDir (fromRow + rowDir) (fromCol + colDir) 16
          else some false
        | PieceType.queen =>
          if fromRow = toRow ∨ fromCol = toCol ∨ rowDiff = colDiff then
            if fromRow = toRow ∨ fromCol = toCol then
              let startR : Int := if fromRow < toRow then fromRow else toRow
              let endR : Int := if fromRow < toRow then toRow else fromRow
              let startC : Int := if fromCol < toCol then fromCol else toCol
              let endC : Int := if fromCol < toCol then toCol else fromCol
              if fromRow = toRow then pathRowClear board fromRow (startC + 1) endC
              else pathColClear board fromCol (startR + 1) endR
            else
              let rowDir : Int := if fromRow < toRow then 1 else -1
              let colDir : Int := if fromCol < toCol then 1 else -1
              diagClear board toRow toCol rowDir colDir (fromRow + rowDir) (fromCol + colDir) 16
          else some false
        | PieceType.king =>
          some (decide (rowDiff ≤ 1 ∧ colDiff ≤ 1))

/-- Move application from `makeAIMove` (lines 179-181) and
`handleSquareClick` (lines 199-202): copy the board, write the origin
piece into the destination, empty the origin.  When origin equals
destination the second write wins, so the square ends empty. -/
def applyMove (board : Board) (fromRow fromCol toRow toCol : Fin 8) : Board :=
  fun r c =>
    if r = fromRow ∧ c = fromCol then none
    else if r = toRow ∧ c = toCol then board fromRow fromCol
    else board r c

/-- Legal-move enumeration of `makeAIMove` (lines 160-173): every
(origin, destination) pair whose origin holds a piece of `color` and
which `isValidMove` accepts.  The source instantiates `color` with
`'black'` (the AI side) at its only call; the spec interface
`chooseMove(board, color)` passes the color as a parameter. -/
def aiMoves (board : Board) (color : PieceColor) : List (Int × Int × Int × Int) :=
  (List.finRange 8).flatMap fun fromRow =>
    (List.finRange 8).flatMap fun fromCol =>
      match board fromRow fromCol with
      | some piece =>
        if piece.color = color then
          (List.finRange 8).flatMap fun toRow =>
            (List.finRange 8).filterMap fun toCol =>
              if isValidMove board fromRow.val fromCol.val toRow.val toCol.val = some true then
                some ((fromRow.val : Int), (fromCol.val : Int), (toRow.val : Int), (toCol.val : Int))
              else none
        else []
      | none => []

/-- Move selection of `makeAIMove` (lines 175-177): if the enumeration is
nonempty, pick the entry at index `Math.floor(Math.random() * length)`;
the random draw is injected as `rand`, reduced modulo the length (the
source index always lies in `[0, length)`).  Otherwise no move. -/
def chooseMove (board : Board) (color : PieceColor) (rand : Nat) :
    Option (Int × Int × Int × Int) :=
  let moves := aiMoves board color
  if h : 0 < moves.length then
    some (moves.get ⟨rand % moves.length, Nat.mod_lt rand h⟩)
  else none

/-! ### Basic facts about board access -/

/-- An in-range access always yields a cell. -/
theorem getSq_isSome (b : Board) (r c : Int)
    (h : 0 ≤ r ∧ r < 8 ∧ 0 ≤ c ∧ c < 8) : ∃ op, getSq b r c = some op := by
  unfold getSq
  rw [dif_pos h]
  exact ⟨_, rfl⟩

/-- A successful access witnesses that the coordinates are in range. -/
theorem getSq_range (b : Board) (r c : Int) (op : Option Piece)
    (h : getSq b r c = some op) : 0 ≤ r ∧ r < 8 ∧ 0 ≤ c ∧ c < 8 := by
  by_contra hc
  unfold getSq at h
  rw [dif_neg hc] at h
  exact Option.noConfusion h

/-! ### Invariants of the straight-path loops -/

/-- With the row in range and loop bounds inside the grid, the row loop
never goes out of bounds: it returns a boolean. -/
theorem pathRowClear_isSome (board : Board) (row : Int)
    (hrow : 0 ≤ row ∧ row < 8) :
    ∀ (n : Nat) (c endC : Int), (endC - c).toNat = n → 0 ≤ c → endC ≤ 8 →
      (pathRowClear board row c endC).isSome := by
  intro n
  induction n with
  | zero =>
    intro c endC hn hc he
    rw [pathRowClear, dif_neg (by omega)]
    rfl
  | succ m ih =>
    intro c endC hn hc he
    rw [pathRowClear]
    by_cases hlt : c < endC
    · rw [dif_pos hlt]
      obtain ⟨op, hop⟩ := getSq_isSome board row c ⟨hrow.1, hrow.2, hc, by omega⟩
      rw [hop]
      cases op with
      | none => exact ih (c + 1) endC (by omega) (by omega) he
      | some p => rfl
    · rw [dif_neg hlt]; rfl

/-- With the column in range and loop bounds inside the grid, the column
loop never goes out of bounds: it returns a boolean. -/
theorem pathColClear_isSome (board : Board) (col : Int)
    (hcol : 0 ≤ col ∧ col < 8) :
    ∀ (n : Nat) (r endR : Int), (endR - r).toNat = n → 0 ≤ r → endR ≤ 8 →
      (pathColClear board col r endR).isSome := by
  intro n
  induction n with
  | zero =>
    intro r endR hn hr he
    rw [pathColClear, dif_neg (by omega)]
    rfl
  | succ m ih =>
    intro r endR hn hr he
    rw [pathColClear]
    by_cases hlt : r < endR
    · rw [dif_pos hlt]
      obtain ⟨op, hop⟩ := getSq_isSome board r col ⟨hr, by omega, hcol.1, hcol.2⟩
      rw [hop]
      cases op with
      | none => exact ih (r + 1) endR (by omega) (by omega) he
      | some p => rfl
    · rw [dif_neg hlt]; rfl

/-- If some square scanned by the row loop is occupied, the loop reports an
obstruction. -/
theorem pathRowClear_blocked (board : Board) (row : Int)
    (hrow : 0 ≤ row ∧ row < 8) :
    ∀ (n : Nat) (c endC : Int), (endC - c).toNat = n → 0 ≤ c → endC ≤ 8 →
      (∃ (b : Int) (p : Piece), c ≤ b ∧ b < endC ∧ getSq board row b = some (some p)) →
      pathRowClear board row c endC = some false := by
  intro n
  induction n with
  | zero =>
    intro c endC hn hc he hex
    obtain ⟨b, p, hb1, hb2, hb3⟩ := hex
    omega
  | succ m ih =>
    intro c endC hn hc he hex
    obtain ⟨b, p, hb1, hb2, hb3⟩ := hex
    rw [pathRowClear, dif_pos (by omega)]
    obtain ⟨op, hop⟩ := getSq_isSome board row c ⟨hrow.1, hrow.2, hc, by omega⟩
    rw [hop]
    cases op with
    | none =>
      refine ih (c + 1) endC (by omega) (by omega) he ⟨b, p, ?_, hb2, hb3⟩
      rcases eq_or_lt_of_le hb1 with heq | hlt
      · rw [← heq] at hb3; rw [hop] at hb3; exact absurd hb3 (by simp)
      · omega
    | some q => rfl

/-- If some square scanned by the column loop is occupied, the loop reports
an obstruction. -/
theorem pathColClear_blocked (board : Board) (col : Int)
    (hcol : 0 ≤ col ∧ col < 8) :
    ∀ (n : Nat) (r endR : Int), (endR - r).toNat = n → 0 ≤ r → endR ≤ 8 →
      (∃ (b : Int) (p : Piece), r ≤ b ∧ b < endR ∧ getSq board b col = some (some p)) →
      pathColClear board col r endR = some false := by
  intro n
  induction n with
  | zero =>
    intro r endR hn hr he hex
    obtain ⟨b, p, hb1, hb2, hb3⟩ := hex
    omega
  | succ m ih =>
    intro r endR hn hr he hex
    obtain ⟨b, p, hb1, hb2, hb3⟩ := hex
    rw [pathColClear, dif_pos (by omega)]
    obtain ⟨op, hop⟩ := getSq_isSome board r col ⟨hr, by omega, hcol.1, hcol.2⟩
    rw [hop]
    cases op with
    | none =>
      refine ih (r + 1) endR (by omega) (by omega) he ⟨b, p, ?_, hb2, hb3⟩
      rcases eq_or_lt_of_le hb1 with heq | hlt
      · rw [← heq] at hb3; rw [hop] at hb3; exact absurd hb3 (by simp)
      · omega
    | some q => rfl

/-! ### Invariants of the diagonal loop

The loop state is described by the number `k` of steps remaining until the
current square reaches the destination: `r = toRow - k·rowDir`,
`c = toCol - k·colDir` with both direction increments equal to ±1. -/

/-- With the destination in range, a current square in range (or already at
the destination) and enough fuel, the diagonal loop returns a boolean. -/
theorem diagClear_isSome (board : Board) (toR toC rd cd : Int)
    (hrd : rd = 1 ∨ rd = -1) (hcd : cd = 1 ∨ cd = -1)
    (htr : 0 ≤ toR ∧ toR < 8) (htc : 0 ≤ toC ∧ toC < 8) :
    ∀ (k fuel : Nat) (r c : Int), k ≤ fuel →
      r = toR - (k : Int) * rd → c = toC - (k : Int) * cd →
      (k = 0 ∨ (0 ≤ r ∧ r < 8 ∧ 0 ≤ c ∧ c < 8)) →
      (diagClear board toR toC rd cd r c fuel).isSome := by
  intro k
  induction k with
  | zero =>
    intro fuel r c hk hr hc hin
    simp only [Nat.cast_zero, zero_mul, sub_zero] at hr hc
    cases fuel with
    | zero => rw [diagClear, if_neg (by omega)]; rfl
    | succ f => rw [diagClear, if_neg (by omega)]; rfl
  | succ k ih =>
    intro fuel r c hk hr hc hin
    have hin' := hin.resolve_left (by omega)
    cases fuel with
    | zero => omega
    | succ f =>
      rcases hrd with hrd1 | hrd1 <;> rcases hcd with hcd1 | hcd1 <;>
        subst hrd1 <;> subst hcd1 <;>
      · rw [diagClear, if_pos (by omega)]
        obtain ⟨op, hop⟩ := getSq_isSome board r c hin'
        rw [hop]
        cases op with
        | some q => rfl
        | none => exact ih f _ _ (by omega) (by omega) (by omega) (by omega)

/-- If some square strictly between the current square and the destination
(inclusive of the current square's side) is occupied, the diagonal loop
reports an obstruction. -/
theorem diagClear_blocked (board : Board) (toR toC rd cd : Int)
    (hrd : rd = 1 ∨ rd = -1) (hcd : cd = 1 ∨ cd = -1)
    (htr : 0 ≤ toR ∧ toR < 8) (htc : 0 ≤ toC ∧ toC < 8) :
    ∀ (k fuel : Nat) (r c : Int), k ≤ fuel →
      r = toR - (k : Int) * rd → c = toC - (k : Int) * cd →
      (0 ≤ r ∧ r < 8 ∧ 0 ≤ c ∧ c < 8) →
      (∃ (m : Nat) (p : Piece), 1 ≤ m ∧ m ≤ k ∧
        getSq board (toR - (m : Int) * rd) (toC - (m : Int) * cd) = some (some p)) →
      diagClear board toR toC rd cd r c fuel = some false := by
  intro k
  induction k with
  | zero =>
    intro fuel r c hk hr hc hin hex
    obtain ⟨m, p, hm1, hm2, _⟩ := hex
    omega
  | succ k ih =>
    intro fuel r c hk hr hc hin hex
    obtain ⟨m, p, hm1, hm2, hmp⟩ := hex
    cases fuel with
    | zero => omega
    | succ f =>
      rcases hrd with hrd1 | hrd1 <;> rcases hcd with hcd1 | hcd1 <;>
        subst hrd1 <;> subst hcd1 <;>
      · rw [diagClear, if_pos (by omega)]
        obtain ⟨op, hop⟩ := getSq_isSome board r c hin
        rw [hop]
        cases op with
        | some q => rfl
        | none =>
          have hmk : m ≤ k := by
            by_contra hgt
            have hmeq : m = k + 1 := by omega
            subst hmeq
            rw [← hr, ← hc, hop] at hmp
            simp at hmp
          refine ih f _ _ (by omega) (by omega) (by omega) (by omega) ⟨m, p, hm1, hmk, hmp⟩

/-! ### Null moves (claim C1) -/

/-- A board holding a single white rook at (3,3). -/
def boardC1 : Board := fun r c =>
  if r.val = 3 ∧ c.val = 3 then some ⟨PieceType.rook, PieceColor.white⟩ else none

/-- C1 counterexample: on a board whose square (3,3) holds a white rook, the
null move (3,3) → (3,3) is REJECTED by `isValidMove` (the claim asserts it
is accepted): the destination lookup finds the mover itself, a same-color
piece, and line 69 of the source returns false before the rook geometry is
consulted. -/
theorem nullMove_loophole_cex :
    getSq boardC1 3 3 = some (some ⟨PieceType.rook, PieceColor.white⟩) ∧
      isValidMove boardC1 3 3 3 3 = some false ∧
      isValidMove boardC1 3 3 3 3 ≠ some true :=
  ⟨rfl, rfl, by decide⟩

/-- C1 (amended): for every board and every occupied in-range square — in
particular one holding a rook or queen — the null move onto the piece's own
square returns false: the rook/queen geometry test and the empty path range
would indeed accept it, but the same-color-destination check fires first
because the destination holds the mover itself. -/
theorem nullMove_rejected (board : Board) (r c : Int) (p : Piece)
    (hp : getSq board r c = some (some p)) :
    isValidMove board r c r c = some false := by
  simp [isValidMove, hp, sameColorTarget]

/-- Witness for `nullMove_rejected` (claim C1) at the concrete board `boardC1`. -/
theorem nullMove_rejected_witness :
    getSq boardC1 3 3 = some (some ⟨PieceType.rook, PieceColor.white⟩) ∧
      isValidMove boardC1 3 3 3 3 = some false :=
  ⟨rfl, nullMove_rejected boardC1 3 3 ⟨PieceType.rook, PieceColor.white⟩ rfl⟩

/-! ### Same-color destinations (claim C2) -/

/-- C2: a destination occupied by a piece of the mover's color is rejected,
regardless of the mover's kind (source line 69). -/
theorem sameColorDest_rejected (board : Board) (fromRow fromCol toRow toCol : Int)
    (p q : Piece)
    (hp : getSq board fromRow fromCol = some (some p))
    (hq : getSq board toRow toCol = some (some q))
    (hcol : q.color = p.color) :
    isValidMove board fromRow fromCol toRow toCol = some false := by
  simp [isValidMove, hp, hq, sameColorTarget, hcol]

/-- A board holding a white rook at (0,0) and a white pawn at (0,5). -/
def boardC2 : Board := fun r c =>
  if r.val = 0 ∧ c.val = 0 then some ⟨PieceType.rook, PieceColor.white⟩
  else if r.val = 0 ∧ c.val = 5 then some ⟨PieceType.pawn, PieceColor.white⟩
  else none

/-- Witness for `sameColorDest_rejected` (claim C2): the white rook at (0,0)
may not move onto the white pawn at (0,5). -/
theorem sameColorDest_rejected_witness :
    isValidMove boardC2 0 0 0 5 = some false :=
  sameColorDest_rejected boardC2 0 0 0 5
    ⟨PieceType.rook, PieceColor.white⟩ ⟨PieceType.pawn, PieceColor.white⟩ rfl rfl rfl

/-! ### Empty origins (claim C9) -/

/-- C9: when the in-range origin square is empty, `isValidMove` returns
false for every in-range destination; no error occurs (the result is a
boolean, not the embedded error value `none`). -/
theorem emptyOrigin_rejected (board : Board) (fromRow fromCol toRow toCol : Int)
    (hfrom : getSq board fromRow fromCol = some none)
    (hto : 0 ≤ toRow ∧ toRow < 8 ∧ 0 ≤ toCol ∧ toCol < 8) :
    isValidMove board fromRow fromCol toRow toCol = some false := by
  simp [isValidMove, hfrom]

/-- Witness for `emptyOrigin_rejected` (claim C9): square (4,4) of `boardC2`
is empty, so any move from it — here to (0,0) — is rejected without error. -/
theorem emptyOrigin_rejected_witness :
    isValidMove boardC2 4 4 0 0 = some false :=
  emptyOrigin_rejected boardC2 4 4 0 0 rfl (by decide)

/-! ### Move application (claims C7, C8) -/

/-- C7: applying a move with distinct origin and destination onto an empty
destination, then applying the reverse move, restores the original
occupancy on every square. -/
theorem applyMove_roundtrip (board : Board) (fr fc tr tc : Fin 8)
    (hne : ¬(fr = tr ∧ fc = tc)) (hempty : board tr tc = none) :
    ∀ r c : Fin 8, applyMove (applyMove board fr fc tr tc) tr tc fr fc r c = board r c := by
  intro r c
  simp only [applyMove]
  by_cases h1 : r = tr ∧ c = tc
  · rw [if_pos h1, h1.1, h1.2, hempty]
  · rw [if_neg h1]
    by_cases h2 : r = fr ∧ c = fc
    · rw [if_pos h2, if_neg (fun h => hne ⟨h.1.symm, h.2.symm⟩), h2.1, h2.2]
      simp
    · rw [if_neg h2, if_neg h2, if_neg h1]

/-- Witness for `applyMove_roundtrip` (claim C7): move the rook of `boardC2` from
(0,0) to the empty square (3,0) and back; the two squares recover their
original contents. -/
theorem applyMove_roundtrip_witness :
    applyMove (applyMove boardC2 0 0 3 0) 3 0 0 0 0 0 = boardC2 0 0 ∧
      applyMove (applyMove boardC2 0 0 3 0) 3 0 0 0 3 0 = boardC2 3 0 :=
  ⟨applyMove_roundtrip boardC2 0 0 3 0 (by decide) rfl 0 0,
   applyMove_roundtrip boardC2 0 0 3 0 (by decide) rfl 3 0⟩

/-- C8 counterexample: for a move whose origin equals its destination the
result does NOT hold the piece that was at the origin — the second write
(`newBoard[fromRow][fromCol] = null`) empties the square, destroying the
piece.  The claim quantifies over every move, so this refutes it. -/
theorem applyMove_nullMove_cex :
    boardC2 0 0 = some ⟨PieceType.rook, PieceColor.white⟩ ∧
      applyMove boardC2 0 0 0 0 0 0 = none ∧
      applyMove boardC2 0 0 0 0 0 0 ≠ boardC2 0 0 :=
  ⟨rfl, rfl, by decide⟩

/-- C8 (amended): for every move whose origin differs from its destination,
the new board holds the origin piece at the destination, the origin is
empty, and every other square is unchanged.  (Non-mutation of the input is
inherent here: `applyMove` builds a new function value, embedding the
source's copy `board.map(row => [...row])`.) -/
theorem applyMove_frame (board : Board) (fr fc tr tc : Fin 8)
    (hne : ¬(fr = tr ∧ fc = tc)) :
    applyMove board fr fc tr tc tr tc = board fr fc ∧
      applyMove board fr fc tr tc fr fc = none ∧
      (∀ r c : Fin 8, ¬(r = fr ∧ c = fc) → ¬(r = tr ∧ c = tc) →
        applyMove board fr fc tr tc r c = board r c) := by
  refine ⟨?_, ?_, ?_⟩
  · simp only [applyMove]
    rw [if_neg (fun h => hne ⟨h.1.symm, h.2.symm⟩)]
    simp
  · simp only [applyMove]
    simp
  · intro r c h1 h2
    simp only [applyMove]
    rw [if_neg h1, if_neg h2]

/-- Witness for `applyMove_frame` (claim C8) on `boardC2`, moving (0,0) to (3,0):
destination gets the rook, origin is emptied, and the untouched squares
(0,5) and (5,5) keep their contents. -/
theorem applyMove_frame_witness :
    applyMove boardC2 0 0 3 0 3 0 = boardC2 0 0 ∧
      applyMove boardC2 0 0 3 0 0 0 = none ∧
      applyMove boardC2 0 0 3 0 0 5 = boardC2 0 5 ∧
      applyMove boardC2 0 0 3 0 5 5 = boardC2 5 5 :=
  ⟨(applyMove_frame boardC2 0 0 3 0 (by decide)).1,
   (applyMove_frame boardC2 0 0 3 0 (by decide)).2.1,
   (applyMove_frame boardC2 0 0 3 0 (by decide)).2.2 0 5 (by decide) (by decide),
   (applyMove_frame boardC2 0 0 3 0 (by decide)).2.2 5 5 (by decide) (by decide)⟩

/-! ### Pawn moves (claims C4, C5) -/

/-- Forward direction of a pawn (source line 76). -/
def pawnDir (c : PieceColor) : Int := if c = PieceColor.white then -1 else 1

/-- Starting rank of a pawn (source line 77). -/
def pawnStartRow (c : PieceColor) : Int := if c = PieceColor.white then 6 else 1

/-- C5: a pawn's one-column-sideways, one-row-forward move is rejected when
the destination is empty and accepted when the destination holds an
opposing piece. -/
theorem pawn_diagonal (board : Board) (col : PieceColor) (fr fc dc : Int) (p : Piece)
    (hdc : dc = 1 ∨ dc = -1)
    (hp : getSq board fr fc = some (some p))
    (hpt : p.type = PieceType.pawn) (hpc : p.color = col)
    (hto : 0 ≤ fr + pawnDir col ∧ fr + pawnDir col < 8 ∧ 0 ≤ fc + dc ∧ fc + dc < 8) :
    (getSq board (fr + pawnDir col) (fc + dc) = some none →
      isValidMove board fr fc (fr + pawnDir col) (fc + dc) = some false) ∧
    (∀ q : Piece, getSq board (fr + pawnDir col) (fc + dc) = some (some q) →
      q.color ≠ p.color →
      isValidMove board fr fc (fr + pawnDir col) (fc + dc) = some true) := by
  constructor
  · intro ht
    have hcne : ¬(fc + dc = fc) := by omega
    simp only [pawnDir] at ht
    simp [isValidMove, hp, ht, sameColorTarget, hpt, hpc, pawnDir, hcne]
  · intro q hq hqc
    have hcne : ¬(fc + dc = fc) := by omega
    have hca : dc.natAbs = 1 := by omega
    have hqcol : ¬(q.color = col) := by rw [← hpc]; exact hqc
    simp only [pawnDir] at hq
    simp [isValidMove, hp, hq, sameColorTarget, hpt, hpc, pawnDir, hcne, hqcol, hca]

/-- C4: from its starting rank, a pawn with both forward squares empty may
advance one or two squares; with the intermediate square occupied the
two-step advance is illegal; and a two-step advance from any other rank is
illegal. -/
theorem pawn_advance (board : Board) (col : PieceColor) (fc : Int)
    (hfc : 0 ≤ fc ∧ fc < 8) :
    (∀ p : Piece, getSq board (pawnStartRow col) fc = some (some p) →
      p.type = PieceType.pawn → p.color = col →
      getSq board (pawnStartRow col + pawnDir col) fc = some none →
      getSq board (pawnStartRow col + 2 * pawnDir col) fc = some none →
      isValidMove board (pawnStartRow col) fc (pawnStartRow col + pawnDir col) fc = some true ∧
      isValidMove board (pawnStartRow col) fc (pawnStartRow col + 2 * pawnDir col) fc
        = some true) ∧
    (∀ p q : Piece, getSq board (pawnStartRow col) fc = some (some p) →
      p.type = PieceType.pawn → p.color = col →
      getSq board (pawnStartRow col + pawnDir col) fc = some (some q) →
      isValidMove board (pawnStartRow col) fc (pawnStartRow col + 2 * pawnDir col) fc
        = some false) ∧
    (∀ (fr : Int) (p : Piece), fr ≠ pawnStartRow col →
      getSq board fr fc = some (some p) → p.type = PieceType.pawn → p.color = col →
      0 ≤ fr ∧ fr < 8 → 0 ≤ fr + 2 * pawnDir col ∧ fr + 2 * pawnDir col < 8 →
      isValidMove board fr fc (fr + 2 * pawnDir col) fc = some false) := by
  cases col with
  | white =>
    refine ⟨?_, ?_, ?_⟩
    · intro p hp hpt hpc h1 h2
      simp only [pawnDir, pawnStartRow] at hp h1 h2 ⊢
      simp at hp h1 h2 ⊢
      constructor
      · simp [isValidMove, hp, h1, sameColorTarget, hpt, hpc]
      · simp [isValidMove, hp, h1, h2, sameColorTarget, hpt, hpc]
    · intro p q hp hpt hpc hq
      simp only [pawnDir, pawnStartRow] at hp hq ⊢
      simp at hp hq ⊢
      obtain ⟨op, hop⟩ := getSq_isSome board 4 fc ⟨by omega, by omega, hfc.1, hfc.2⟩
      cases op with
      | some t =>
        by_cases htc : t.color = p.color
        · rw [hpc] at htc
          simp [isValidMove, hp, hop, sameColorTarget, htc, hpt, hpc]
        · rw [hpc] at htc
          simp [isValidMove, hp, hop, sameColorTarget, htc, hpt, hpc]
      | none =>
        simp [isValidMove, hp, hop, hq, sameColorTarget, hpt, hpc]
    · intro fr p hne hp hpt hpc hfr hto
      simp only [pawnDir, pawnStartRow] at hne hto ⊢
      simp at hne hto ⊢
      obtain ⟨op, hop⟩ := getSq_isSome board (fr - 2) fc ⟨by omega, by omega, hfc.1, hfc.2⟩
      cases op with
      | some t =>
        by_cases htc : t.color = p.color
        · rw [hpc] at htc
          simp [isValidMove, hp, hop, sameColorTarget, htc, hpt, hpc,
            show fr + -2 = fr - 2 by omega]
        · rw [hpc] at htc
          simp [isValidMove, hp, hop, sameColorTarget, htc, hpt, hpc,
            show fr + -2 = fr - 2 by omega, show ¬(fr - 2 = fr + -1) by omega]
      | none =>
        simp [isValidMove, hp, hop, sameColorTarget, hpt, hpc,
          show fr + -2 = fr - 2 by omega, show ¬(fr - 2 = fr + -1) by omega, hne]
  | black =>
    refine ⟨?_, ?_, ?_⟩
    · intro p hp hpt hpc h1 h2
      simp only [pawnDir, pawnStartRow] at hp h1 h2 ⊢
      simp at hp h1 h2 ⊢
      constructor
      · simp [isValidMove, hp, h1, sameColorTarget, hpt, hpc]
      · simp [isValidMove, hp, h1, h2, sameColorTarget, hpt, hpc]
    · intro p q hp hpt hpc hq
      simp only [pawnDir, pawnStartRow] at hp hq ⊢
      simp at hp hq ⊢
      obtain ⟨op, hop⟩ := getSq_isSome board 3 fc ⟨by omega, by omega, hfc.1, hfc.2⟩
      cases op with
      | some t =>
        by_cases htc : t.color = p.color
        · rw [hpc] at htc
          simp [isValidMove, hp, hop, sameColorTarget, htc, hpt, hpc]
        · rw [hpc] at htc
          simp [isValidMove, hp, hop, sameColorTarget, htc, hpt, hpc]
      | none =>
        simp [isValidMove, hp, hop, hq, sameColorTarget, hpt, hpc]
    · intro fr p hne hp hpt hpc hfr hto
      simp only [pawnDir, pawnStartRow] at hne hto ⊢
      simp at hne hto ⊢
      obtain ⟨op, hop⟩ := getSq_isSome board (fr + 2) fc ⟨by omega, by omega, hfc.1, hfc.2⟩
      cases op with
      | some t =>
        by_cases htc : t.color = p.color
        · rw [hpc] at htc
          simp [isValidMove, hp, hop, sameColorTarget, htc, hpt, hpc]
        · rw [hpc] at htc
          simp [isValidMove, hp, hop, sameColorTarget, htc, hpt, hpc,
            show ¬(fr + 2 = fr + 1) by omega]
      | none =>
        simp [isValidMove, hp, hop, sameColorTarget, hpt, hpc,
          show ¬(fr + 2 = fr + 1) by omega, hne]

/-- Board for the pawn-advance witness: white pawns at (6,4), (6,0) and
(3,7), a black knight at (5,0) blocking the (6,0) pawn's intermediate
square. -/
def boardC4 : Board := fun r c =>
  if r.val = 6 ∧ c.val = 4 then some ⟨PieceType.pawn, PieceColor.white⟩
  else if r.val = 6 ∧ c.val = 0 then some ⟨PieceType.pawn, PieceColor.white⟩
  else if r.val = 5 ∧ c.val = 0 then some ⟨PieceType.knight, PieceColor.black⟩
  else if r.val = 3 ∧ c.val = 7 then some ⟨PieceType.pawn, PieceColor.white⟩
  else none

/-- Witness for `pawn_advance` (claim C4): the (6,4) pawn may advance one or two
squares; the blocked (6,0) pawn may not advance two; the (3,7) pawn off its
starting rank may not advance two. -/
theorem pawn_advance_witness :
    isValidMove boardC4 6 4 5 4 = some true ∧
      isValidMove boardC4 6 4 4 4 = some true ∧
      isValidMove boardC4 6 0 4 0 = some false ∧
      isValidMove boardC4 3 7 1 7 = some false :=
  ⟨((pawn_advance boardC4 PieceColor.white 4 (by decide)).1
      ⟨PieceType.pawn, PieceColor.white⟩ rfl rfl rfl rfl rfl).1,
   ((pawn_advance boardC4 PieceColor.white 4 (by decide)).1
      ⟨PieceType.pawn, PieceColor.white⟩ rfl rfl rfl rfl rfl).2,
   (pawn_advance boardC4 PieceColor.white 0 (by decide)).2.1
      ⟨PieceType.pawn, PieceColor.white⟩ ⟨PieceType.knight, PieceColor.black⟩ rfl rfl rfl rfl,
   (pawn_advance boardC4 PieceColor.white 7 (by decide)).2.2 3
      ⟨PieceType.pawn, PieceColor.white⟩ (by decide) rfl rfl rfl (by decide) (by decide)⟩

/-- Board for the pawn-diagonal witness: a white pawn at (4,4) and a black
knight at (3,3); square (3,5) is empty. -/
def boardC5 : Board := fun r c =>
  if r.val = 4 ∧ c.val = 4 then some ⟨PieceType.pawn, PieceColor.white⟩
  else if r.val = 3 ∧ c.val = 3 then some ⟨PieceType.knight, PieceColor.black⟩
  else none

/-- Witness for `pawn_diagonal` (claim C5): the white pawn at (4,4) may not move
diagonally to the empty (3,5), and may capture the black knight at (3,3). -/
theorem pawn_diagonal_witness :
    isValidMove boardC5 4 4 3 5 = some false ∧
      isValidMove boardC5 4 4 3 3 = some true :=
  ⟨(pawn_diagonal boardC5 PieceColor.white 4 4 1 ⟨PieceType.pawn, PieceColor.white⟩
      (Or.inl rfl) rfl rfl rfl (by decide)).1 rfl,
   (pawn_diagonal boardC5 PieceColor.white 4 4 (-1) ⟨PieceType.pawn, PieceColor.white⟩
      (Or.inr rfl) rfl rfl rfl (by decide)).2
      ⟨PieceType.knight, PieceColor.black⟩ rfl (by decide)⟩

/-! ### Totality of `isValidMove` on in-range inputs (claim C10) -/

/-- The straight-path dispatch of the rook and queen cases returns a
boolean whenever all four coordinates are in range. -/
theorem straightPath_isSome (board : Board) (fromRow fromCol toRow toCol : Int)
    (hfr : 0 ≤ fromRow ∧ fromRow < 8) (hfc : 0 ≤ fromCol ∧ fromCol < 8)
    (htr : 0 ≤ toRow ∧ toRow < 8) (htc : 0 ≤ toCol ∧ toCol < 8) :
    (if fromRow = toRow
      then pathRowClear board fromRow ((if fromCol < toCol then fromCol else toCol) + 1)
        (if fromCol < toCol then toCol else fromCol)
      else pathColClear board fromCol ((if fromRow < toRow then fromRow else toRow) + 1)
        (if fromRow < toRow then toRow else fromRow)).isSome := by
  by_cases h : fromRow = toRow
  · rw [if_pos h]
    by_cases h2 : fromCol < toCol
    · simp only [if_pos h2]
      exact pathRowClear_isSome board fromRow hfr _ _ _ rfl (by omega) (by omega)
    · simp only [if_neg h2]
      exact pathRowClear_isSome board fromRow hfr _ _ _ rfl (by omega) (by omega)
  · rw [if_neg h]
    by_cases h2 : fromRow < toRow
    · simp only [if_pos h2]
      exact pathColClear_isSome board fromCol hfc _ _ _ rfl (by omega) (by omega)
    · simp only [if_neg h2]
      exact pathColClear_isSome board fromCol hfc _ _ _ rfl (by omega) (by omega)

/-- The diagonal dispatch of the bishop and queen cases returns a boolean
whenever all four coordinates are in range, the move is a proper diagonal
and the endpoints differ. -/
theorem diagPath_isSome (board : Board) (fromRow fromCol toRow toCol : Int)
    (hfr : 0 ≤ fromRow ∧ fromRow < 8) (hfc : 0 ≤ fromCol ∧ fromCol < 8)
    (htr : 0 ≤ toRow ∧ toRow < 8) (htc : 0 ≤ toCol ∧ toCol < 8)
    (hd : (toRow - fromRow).natAbs = (toCol - fromCol).natAbs)
    (hnz : fromRow ≠ toRow) :
    (diagClear board toRow toCol (if fromRow < toRow then 1 else -1)
      (if fromCol < toCol then 1 else -1)
      (fromRow + (if fromRow < toRow then 1 else -1))
      (fromCol + (if fromCol < toCol then 1 else -1)) 16).isSome := by
  have hcz : fromCol ≠ toCol := by omega
  by_cases h1 : fromRow < toRow <;> by_cases h2 : fromCol < toCol
  · simp only [if_pos h1, if_pos h2]
    exact diagClear_isSome board toRow toCol 1 1 (Or.inl rfl) (Or.inl rfl) htr htc
      ((toRow - fromRow).toNat - 1) 16 _ _ (by omega) (by omega) (by omega) (by omega)
  · simp only [if_pos h1, if_neg h2]
    exact diagClear_isSome board toRow toCol 1 (-1) (Or.inl rfl) (Or.inr rfl) htr htc
      ((toRow - fromRow).toNat - 1) 16 _ _ (by omega) (by omega) (by omega) (by omega)
  · simp only [if_neg h1, if_pos h2]
    exact diagClear_isSome board toRow toCol (-1) 1 (Or.inr rfl) (Or.inl rfl) htr htc
      ((fromRow - toRow).toNat - 1) 16 _ _ (by omega) (by omega) (by omega) (by omega)
  · simp only [if_neg h1, if_neg h2]
    exact diagClear_isSome board toRow toCol (-1) (-1) (Or.inr rfl) (Or.inr rfl) htr htc
      ((fromRow - toRow).toNat - 1) 16 _ _ (by omega) (by omega) (by omega) (by omega)

/-- C10: with all four coordinates in [0,7], `isValidMove` performs no
out-of-range board access — every branch, including the pawn's
intermediate-square read and the sliding-path loops, stays on the grid, so
the embedded result is a boolean (`isSome`), never the error value. -/
theorem isValidMove_total (board : Board) (fromRow fromCol toRow toCol : Int)
    (hfr : 0 ≤ fromRow ∧ fromRow < 8) (hfc : 0 ≤ fromCol ∧ fromCol < 8)
    (htr : 0 ≤ toRow ∧ toRow < 8) (htc : 0 ≤ toCol ∧ toCol < 8) :
    (isValidMove board fromRow fromCol toRow toCol).isSome := by
  obtain ⟨op1, hop1⟩ := getSq_isSome board fromRow fromCol ⟨hfr.1, hfr.2, hfc.1, hfc.2⟩
  obtain ⟨op2, hop2⟩ := getSq_isSome board toRow toCol ⟨htr.1, htr.2, htc.1, htc.2⟩
  cases op1 with
  | none => simp [isValidMove, hop1]
  | some piece =>
    simp only [isValidMove, hop1, hop2]
    by_cases hsc : sameColorTarget op2 piece = true
    · rw [if_pos hsc]; rfl
    · rw [if_neg hsc]
      have hdiff : ¬(fromRow = toRow ∧ fromCol = toCol) := by
        rintro ⟨h1, h2⟩
        rw [← h1, ← h2, hop1] at hop2
        have hinj : op2 = some piece := by
          injection hop2.symm
        rw [hinj] at hsc
        exact hsc (by simp [sameColorTarget])
      cases ht : piece.type with
      | pawn =>
        simp only [ht]
        by_cases hb1 : toCol = fromCol ∧ op2 = none
        · rw [if_pos hb1]
          by_cases hb2 : toRow = fromRow +
              (if piece.color = PieceColor.white then (-1 : Int) else 1)
          · rw [if_pos hb2]; rfl
          · rw [if_neg hb2]
            by_cases hb3 : fromRow = (if piece.color = PieceColor.white then (6 : Int) else 1) ∧
                toRow = fromRow + 2 * (if piece.color = PieceColor.white then (-1 : Int) else 1)
            · rw [if_pos hb3]
              have hmidrange : 0 ≤ fromRow + (if piece.color = PieceColor.white then (-1 : Int) else 1) ∧
                  fromRow + (if piece.color = PieceColor.white then (-1 : Int) else 1) < 8 := by
                rcases hb3 with ⟨hb3a, hb3b⟩
                cases hcol : piece.color <;> rw [hcol] at hb3a <;> simp at hb3a ⊢ <;> omega
              obtain ⟨opm, hopm⟩ := getSq_isSome board
                (fromRow + (if piece.color = PieceColor.white then (-1 : Int) else 1)) fromCol
                ⟨hmidrange.1, hmidrange.2, hfc.1, hfc.2⟩
              simp only [hopm]
              by_cases hm : opm = none
              · rw [if_pos hm]; rfl
              · rw [if_neg hm]; rfl
            · rw [if_neg hb3]; rfl
        · rw [if_neg hb1]; rfl
      | rook =>
        simp only [ht]
        by_cases hor : fromRow = toRow ∨ fromCol = toCol
        · rw [if_pos hor]
          exact straightPath_isSome board fromRow fromCol toRow toCol hfr hfc htr htc
        · rw [if_neg hor]; rfl
      | knight => simp [ht]
      | bishop =>
        simp only [ht]
        by_cases hd : (toRow - fromRow).natAbs = (toCol - fromCol).natAbs
        · rw [if_pos hd]
          have hnz : fromRow ≠ toRow := by
            intro h
            exact hdiff ⟨h, by omega⟩
          exact diagPath_isSome board fromRow fromCol toRow toCol hfr hfc htr htc hd hnz
        · rw [if_neg hd]; rfl
      | queen =>
        simp only [ht]
        by_cases h1 : fromRow = toRow ∨ fromCol = toCol ∨
            (toRow - fromRow).natAbs = (toCol - fromCol).natAbs
        · rw [if_pos h1]
          by_cases h2 : fromRow = toRow ∨ fromCol = toCol
          · rw [if_pos h2]
            exact straightPath_isSome board fromRow fromCol toRow toCol hfr hfc htr htc
          · rw [if_neg h2]
            have hd : (toRow - fromRow).natAbs = (toCol - fromCol).natAbs := by tauto
            have hnz : fromRow ≠ toRow := fun h => h2 (Or.inl h)
            exact diagPath_isSome board fromRow fromCol toRow toCol hfr hfc htr htc hd hnz
        · rw [if_neg h1]; rfl
      | king => simp [ht]

/-- Witness for `isValidMove_total` (claim C10) at a concrete in-range input: on
`boardC2` the white rook's move (0,0)→(0,3) yields a boolean. -/
theorem isValidMove_total_witness :
    (isValidMove boardC2 0 0 0 3).isSome = true :=
  isValidMove_total boardC2 0 0 0 3 (by decide) (by decide) (by decide) (by decide)

/-! ### Obstructed sliding moves (claim C3) -/

/-- Line geometry of a sliding piece, as tested by the source: rook —
same row or column (line 86); bishop — equal absolute row and column
deltas (line 106); queen — either (line 120).  Other kinds have no line
geometry. -/
def lineGeometry (t : PieceType) (fromRow fromCol toRow toCol : Int) : Prop :=
  match t with
  | PieceType.rook => fromRow = toRow ∨ fromCol = toCol
  | PieceType.bishop => (toRow - fromRow).natAbs = (toCol - fromCol).natAbs
  | PieceType.queen =>
      fromRow = toRow ∨ fromCol = toCol ∨
        (toRow - fromRow).natAbs = (toCol - fromCol).natAbs
  | _ => False

/-- The square (br, bc) lies strictly between the origin and the
destination along the line of travel: on the shared row, on the shared
column, or on the open diagonal segment (strictly between in both
coordinates, at equal diagonal distance from the origin, on a diagonal
move). -/
def strictlyBetween (fromRow fromCol toRow toCol br bc : Int) : Prop :=
  (br = fromRow ∧ br = toRow ∧
    ((fromCol < bc ∧ bc < toCol) ∨ (toCol < bc ∧ bc < fromCol))) ∨
  (bc = fromCol ∧ bc = toCol ∧
    ((fromRow < br ∧ br < toRow) ∨ (toRow < br ∧ br < fromRow))) ∨
  (((fromRow < br ∧ br < toRow) ∨ (toRow < br ∧ br < fromRow)) ∧
    ((fromCol < bc ∧ bc < toCol) ∨ (toCol < bc ∧ bc < fromCol)) ∧
    (br - fromRow).natAbs = (bc - fromCol).natAbs ∧
    (toRow - fromRow).natAbs = (toCol - fromCol).natAbs)

/-- The straight-path dispatch reports an obstruction when an occupied
square lies strictly between origin and destination on the shared line. -/
theorem straightPath_blocked (board : Board) (fromRow fromCol toRow toCol br bc : Int)
    (q : Piece)
    (hfr : 0 ≤ fromRow ∧ fromRow < 8) (hfc : 0 ≤ fromCol ∧ fromCol < 8)
    (htr : 0 ≤ toRow ∧ toRow < 8) (htc : 0 ≤ toCol ∧ toCol < 8)
    (hor : fromRow = toRow ∨ fromCol = toCol)
    (hbet : strictlyBetween fromRow fromCol toRow toCol br bc)
    (hq : getSq board br bc = some (some q)) :
    (if fromRow = toRow
      then pathRowClear board fromRow ((if fromCol < toCol then fromCol else toCol) + 1)
        (if fromCol < toCol then toCol else fromCol)
      else pathColClear board fromCol ((if fromRow < toRow then fromRow else toRow) + 1)
        (if fromRow < toRow then toRow else fromRow)) = some false := by
  rcases hbet with ⟨h1, h2, h3⟩ | ⟨h1, h2, h3⟩ | ⟨hr3, hc3, hd3, he3⟩
  · rw [if_pos (show fromRow = toRow by omega)]
    rcases h3 with ⟨ha, hb⟩ | ⟨ha, hb⟩
    · simp only [if_pos (show fromCol < toCol by omega)]
      refine pathRowClear_blocked board fromRow hfr ((toCol - (fromCol + 1)).toNat)
        (fromCol + 1) toCol rfl (by omega) (by omega) ⟨bc, q, by omega, by omega, ?_⟩
      rw [show fromRow = br by omega]
      exact hq
    · simp only [if_neg (show ¬fromCol < toCol by omega)]
      refine pathRowClear_blocked board fromRow hfr ((fromCol - (toCol + 1)).toNat)
        (toCol + 1) fromCol rfl (by omega) (by omega) ⟨bc, q, by omega, by omega, ?_⟩
      rw [show fromRow = br by omega]
      exact hq
  · rw [if_neg (show ¬fromRow = toRow by omega)]
    rcases h3 with ⟨ha, hb⟩ | ⟨ha, hb⟩
    · simp only [if_pos (show fromRow < toRow by omega)]
      refine pathColClear_blocked board fromCol hfc ((toRow - (fromRow + 1)).toNat)
        (fromRow + 1) toRow rfl (by omega) (by omega) ⟨br, q, by omega, by omega, ?_⟩
      rw [show fromCol = bc by omega]
      exact hq
    · simp only [if_neg (show ¬fromRow < toRow by omega)]
      refine pathColClear_blocked board fromCol hfc ((fromRow - (toRow + 1)).toNat)
        (toRow + 1) fromRow rfl (by omega) (by omega) ⟨br, q, by omega, by omega, ?_⟩
      rw [show fromCol = bc by omega]
      exact hq
  · exfalso
    omega

/-- The diagonal dispatch reports an obstruction when an occupied square
lies on the open diagonal segment between origin and destination. -/
theorem diagPath_blocked (board : Board) (fromRow fromCol toRow toCol br bc : Int)
    (q : Piece)
    (hfr : 0 ≤ fromRow ∧ fromRow < 8) (hfc : 0 ≤ fromCol ∧ fromCol < 8)
    (htr : 0 ≤ toRow ∧ toRow < 8) (htc : 0 ≤ toCol ∧ toCol < 8)
    (hrows : (fromRow < br ∧ br < toRow) ∨ (toRow < br ∧ br < fromRow))
    (hcols : (fromCol < bc ∧ bc < toCol) ∨ (toCol < bc ∧ bc < fromCol))
    (hdist : (br - fromRow).natAbs = (bc - fromCol).natAbs)
    (hdiag : (toRow - fromRow).natAbs = (toCol - fromCol).natAbs)
    (hq : getSq board br bc = some (some q)) :
    diagClear board toRow toCol (if fromRow < toRow then 1 else -1)
      (if fromCol < toCol then 1 else -1)
      (fromRow + (if fromRow < toRow then 1 else -1))
      (fromCol + (if fromCol < toCol then 1 else -1)) 16 = some false := by
  rcases hrows with ⟨ha, hb⟩ | ⟨ha, hb⟩ <;> rcases hcols with ⟨hc1, hc2⟩ | ⟨hc1, hc2⟩
  · simp only [if_pos (show fromRow < toRow by omega), if_pos (show fromCol < toCol by omega)]
    have e1 : toRow - ((toRow - br).toNat : Int) * 1 = br := by omega
    have e2 : toCol - ((toRow - br).toNat : Int) * 1 = bc := by omega
    exact diagClear_blocked board toRow toCol 1 1 (Or.inl rfl) (Or.inl rfl) htr htc
      ((toRow - fromRow).toNat - 1) 16 (fromRow + 1) (fromCol + 1)
      (by omega) (by omega) (by omega) (by omega)
      ⟨(toRow - br).toNat, q, by omega, by omega, by rw [e1, e2]; exact hq⟩
  · simp only [if_pos (show fromRow < toRow by omega), if_neg (show ¬fromCol < toCol by omega)]
    have e1 : toRow - ((toRow - br).toNat : Int) * 1 = br := by omega
    have e2 : toCol - ((toRow - br).toNat : Int) * (-1) = bc := by omega
    exact diagClear_blocked board toRow toCol 1 (-1) (Or.inl rfl) (Or.inr rfl) htr htc
      ((toRow - fromRow).toNat - 1) 16 (fromRow + 1) (fromCol + (-1))
      (by omega) (by omega) (by omega) (by omega)
      ⟨(toRow - br).toNat, q, by omega, by omega, by rw [e1, e2]; exact hq⟩
  · simp only [if_neg (show ¬fromRow < toRow by omega), if_pos (show fromCol < toCol by omega)]
    have e1 : toRow - ((br - toRow).toNat : Int) * (-1) = br := by omega
    have e2 : toCol - ((br - toRow).toNat : Int) * 1 = bc := by omega
    exact diagClear_blocked board toRow toCol (-1) 1 (Or.inr rfl) (Or.inl rfl) htr htc
      ((fromRow - toRow).toNat - 1) 16 (fromRow + (-1)) (fromCol + 1)
      (by omega) (by omega) (by omega) (by omega)
      ⟨(br - toRow).toNat, q, by omega, by omega, by rw [e1, e2]; exact hq⟩
  · simp only [if_neg (show ¬fromRow < toRow by omega), if_neg (show ¬fromCol < toCol by omega)]
    have e1 : toRow - ((br - toRow).toNat : Int) * (-1) = br := by omega
    have e2 : toCol - ((br - toRow).toNat : Int) * (-1) = bc := by omega
    exact diagClear_blocked board toRow toCol (-1) (-1) (Or.inr rfl) (Or.inr rfl) htr htc
      ((fromRow - toRow).toNat - 1) 16 (fromRow + (-1)) (fromCol + (-1))
      (by omega) (by omega) (by omega) (by omega)
      ⟨(br - toRow).toNat, q, by omega, by omega, by rw [e1, e2]; exact hq⟩

/-- C3: when the origin holds a rook, bishop or queen whose line geometry
matches the move, and any square strictly between origin and destination
along the line of travel is occupied (by either color), the move is
rejected. -/
theorem sliding_blocked (board : Board) (fromRow fromCol toRow toCol br bc : Int)
    (p q : Piece)
    (hfr : 0 ≤ fromRow ∧ fromRow < 8) (hfc : 0 ≤ fromCol ∧ fromCol < 8)
    (htr : 0 ≤ toRow ∧ toRow < 8) (htc : 0 ≤ toCol ∧ toCol < 8)
    (hp : getSq board fromRow fromCol = some (some p))
    (hgeom : lineGeometry p.type fromRow fromCol toRow toCol)
    (hbet : strictlyBetween fromRow fromCol toRow toCol br bc)
    (hq : getSq board br bc = some (some q)) :
    isValidMove board fromRow fromCol toRow toCol = some false := by
  obtain ⟨op2, hop2⟩ := getSq_isSome board toRow toCol ⟨htr.1, htr.2, htc.1, htc.2⟩
  simp only [isValidMove, hp, hop2]
  by_cases hsc : sameColorTarget op2 p = true
  · rw [if_pos hsc]
  · rw [if_neg hsc]
    cases hty : p.type with
    | pawn => rw [hty] at hgeom; simp [lineGeometry] at hgeom
    | knight => rw [hty] at hgeom; simp [lineGeometry] at hgeom
    | king => rw [hty] at hgeom; simp [lineGeometry] at hgeom
    | rook =>
      rw [hty] at hgeom
      simp only [lineGeometry] at hgeom
      simp only [hty]
      rw [if_pos hgeom]
      exact straightPath_blocked board fromRow fromCol toRow toCol br bc q hfr hfc htr htc
        hgeom hbet hq
    | bishop =>
      rw [hty] at hgeom
      simp only [lineGeometry] at hgeom
      simp only [hty]
      rw [if_pos hgeom]
      rcases hbet with ⟨h1, h2, h3⟩ | ⟨h1, h2, h3⟩ | ⟨hr3, hc3, hd3, he3⟩
      · exfalso; omega
      · exfalso; omega
      · exact diagPath_blocked board fromRow fromCol toRow toCol br bc q hfr hfc htr htc
          hr3 hc3 hd3 he3 hq
    | queen =>
      rw [hty] at hgeom
      simp only [lineGeometry] at hgeom
      simp only [hty]
      by_cases h2 : fromRow = toRow ∨ fromCol = toCol
      · rw [if_pos (by tauto), if_pos h2]
        exact straightPath_blocked board fromRow fromCol toRow toCol br bc q hfr hfc htr htc
          h2 hbet hq
      · have hd : (toRow - fromRow).natAbs = (toCol - fromCol).natAbs := by tauto
        rw [if_pos (by tauto), if_neg h2]
        rcases hbet with ⟨h1, h2x, h3⟩ | ⟨h1, h2x, h3⟩ | ⟨hr3, hc3, hd3, he3⟩
        · exact absurd (Or.inl (show fromRow = toRow by omega)) h2
        · exact absurd (Or.inr (show fromCol = toCol by omega)) h2
        · exact diagPath_blocked board fromRow fromCol toRow toCol br bc q hfr hfc htr htc
            hr3 hc3 hd3 he3 hq

/-- Witness for `sliding_blocked` (claim C3): on `boardC2` the white rook at (0,0)
moving along its row to (0,7) is blocked by the white pawn at (0,5). -/
theorem sliding_blocked_witness :
    isValidMove boardC2 0 0 0 7 = some false :=
  sliding_blocked boardC2 0 0 0 7 0 5
    ⟨PieceType.rook, PieceColor.white⟩ ⟨PieceType.pawn, PieceColor.white⟩
    (by decide) (by decide) (by decide) (by decide) rfl
    (Or.inl rfl) (Or.inl ⟨rfl, rfl, Or.inl ⟨by decide, by decide⟩⟩) rfl

/-! ### Soundness of the AI move selection (claim C6) -/

/-- Access through `getSq` at the (always in-range) coordinates of a
`Fin 8` pair is the plain board lookup. -/
theorem getSq_fin (b : Board) (r c : Fin 8) :
    getSq b (r.val : Int) (c.val : Int) = some (b r c) := by
  have hr := r.isLt
  have hc := c.isLt
  unfold getSq
  rw [dif_pos ⟨by omega, by omega, by omega, by omega⟩]
  simp [Int.toNat_natCast, Fin.eta]

/-- Membership in the enumeration of `makeAIMove`: exactly the in-range
pairs whose origin holds a piece of the given color and which
`isValidMove` accepts. -/
theorem mem_aiMoves (board : Board) (color : PieceColor) (mv : Int × Int × Int × Int) :
    mv ∈ aiMoves board color ↔
      ∃ (fr fc tr tc : Fin 8) (piece : Piece),
        board fr fc = some piece ∧ piece.color = color ∧
        isValidMove board fr.val fc.val tr.val tc.val = some true ∧
        mv = ((fr.val : Int), (fc.val : Int), (tr.val : Int), (tc.val : Int)) := by
  constructor
  · intro hmem
    unfold aiMoves at hmem
    rw [List.mem_flatMap] at hmem
    obtain ⟨fr, _, hmem⟩ := hmem
    rw [List.mem_flatMap] at hmem
    obtain ⟨fc, _, hmem⟩ := hmem
    cases hb : board fr fc with
    | none => rw [hb] at hmem; simp at hmem
    | some piece =>
      simp only [hb] at hmem
      by_cases hcol : piece.color = color
      · rw [if_pos hcol] at hmem
        rw [List.mem_flatMap] at hmem
        obtain ⟨tr, _, hmem⟩ := hmem
        rw [List.mem_filterMap] at hmem
        obtain ⟨tc, _, htc⟩ := hmem
        by_cases hv : isValidMove board fr.val fc.val tr.val tc.val = some true
        · rw [if_pos hv] at htc
          injection htc with htc
          exact ⟨fr, fc, tr, tc, piece, hb, hcol, hv, htc.symm⟩
        · rw [if_neg hv] at htc
          exact Option.noConfusion htc
      · rw [if_neg hcol] at hmem
        simp at hmem
  · rintro ⟨fr, fc, tr, tc, piece, hb, hcol, hv, rfl⟩
    unfold aiMoves
    rw [List.mem_flatMap]
    refine ⟨fr, List.mem_finRange fr, ?_⟩
    rw [List.mem_flatMap]
    refine ⟨fc, List.mem_finRange fc, ?_⟩
    simp only [hb]
    rw [if_pos hcol, List.mem_flatMap]
    refine ⟨tr, List.mem_finRange tr, ?_⟩
    rw [List.mem_filterMap]
    exact ⟨tc, List.mem_finRange tc, by rw [if_pos hv]⟩

/-- C6: every move returned by `chooseMove` — for any outcome of the
injected random draw — belongs to the legal-move enumeration: its origin
is in range and holds a piece of the requested color, and `isValidMove`
accepts the pair; and when the enumeration is empty, `chooseMove` returns
none. -/
theorem chooseMove_sound (board : Board) (color : PieceColor) (rand : Nat) :
    (∀ mv, chooseMove board color rand = some mv →
      mv ∈ aiMoves board color ∧
      (0 ≤ mv.1 ∧ mv.1 < 8 ∧ 0 ≤ mv.2.1 ∧ mv.2.1 < 8) ∧
      (∃ piece : Piece, getSq board mv.1 mv.2.1 = some (some piece) ∧ piece.color = color) ∧
      isValidMove board mv.1 mv.2.1 mv.2.2.1 mv.2.2.2 = some true) ∧
    (aiMoves board color = [] → chooseMove board color rand = none) := by
  constructor
  · intro mv hmv
    unfold chooseMove at hmv
    by_cases h : 0 < (aiMoves board color).length
    · rw [dif_pos h] at hmv
      injection hmv with hmv
      have hmem : mv ∈ aiMoves board color := hmv ▸ List.get_mem _ _ _
      obtain ⟨fr, fc, tr, tc, piece, hb, hcol, hv, hmv2⟩ :=
        (mem_aiMoves board color mv).1 hmem
      subst hmv2
      have hr1 : (0 : Int) ≤ fr.val := Int.natCast_nonneg _
      have hr2 : (fr.val : Int) < 8 := by exact_mod_cast fr.isLt
      have hc1 : (0 : Int) ≤ fc.val := Int.natCast_nonneg _
      have hc2 : (fc.val : Int) < 8 := by exact_mod_cast fc.isLt
      refine ⟨hmem, ⟨hr1, hr2, hc1, hc2⟩, ⟨piece, ?_, hcol⟩, hv⟩
      show getSq board (fr.val : Int) (fc.val : Int) = some (some piece)
      rw [getSq_fin board fr fc, hb]
    · rw [dif_neg h] at hmv
      exact Option.noConfusion hmv
  · intro hempty
    unfold chooseMove
    rw [dif_neg]
    rw [hempty]
    simp

/-- A board holding a single black pawn at (1,0). -/
def boardC6 : Board := fun r c =>
  if r.val = 1 ∧ c.val = 0 then some ⟨PieceType.pawn, PieceColor.black⟩ else none

/-- Witness for `chooseMove_sound` (claim C6): on `boardC6` the chosen move (for draw
0) is the pawn advance (1,0)→(2,0), a member of the enumeration; on
`boardC2` (which has no black piece) the enumeration is empty and no move
is returned. -/
theorem chooseMove_sound_witness :
    ((1 : Int), (0 : Int), (2 : Int), (0 : Int)) ∈ aiMoves boardC6 PieceColor.black ∧
      chooseMove boardC2 PieceColor.black 0 = none :=
  ⟨((chooseMove_sound boardC6 PieceColor.black 0).1 (1, 0, 2, 0) (by decide)).1,
   (chooseMove_sound boardC2 PieceColor.black 0).2 (by decide)⟩
